import Mathlib

/-!
# Verification of the fptools data-loading and session-modeling subsystem

A shallow embedding, in Lean 4, of the `fptools` core: `Signal`,
`Session`, the cache, the manifest resolver, and the load orchestrator.
The repository's distributed sources contain the documentation
(`docs/loading.md`, `docs/session.md`, `README.md`) and packaging
configuration, but not the Python implementation module `fptools.io`
itself; every definition below is therefore modelled from the
specification's description of that module, as indicated in the doc
comments, and the theorems settle the specification's testable
properties against that model.

Numeric values are modelled as exact rationals (`ℚ`): the spec demands
exact round-tripping of arrays, and the one property stated "within
floating-point tolerance" (per-sample means) is established with exact
equality, which implies it.
-/

namespace FPTools

/-- Modelled from the spec: sample values of a fixed-rate time series.
The implementation's numpy float arrays are embedded as exact rationals. -/
abbrev Value := ℚ

/-- Modelled from the spec (§3 Data model, Signal): immutable container
for one or more observations of a fixed-rate time series. `data` holds
`nobs` rows of `nsamples` samples each; a single observation is one row. -/
structure Signal where
  name : String
  unit : Option String
  data : List (List Value)
  sample_rate : ℚ
  marks : List ℚ
deriving DecidableEq, Repr

/-- Modelled from the spec: derived attribute `nobs`, the number of
observations (rows of `data`). -/
def Signal.nobs (s : Signal) : Nat := s.data.length

/-- Modelled from the spec: derived attribute `nsamples`, the common
length of the observation rows (the array's trailing shape dimension). -/
def Signal.nsamples (s : Signal) : Nat := (s.data.headD []).length

/-- Modelled from the spec: derived attribute
`duration = nsamples / sample_rate`, seconds of wall-clock time. -/
def Signal.duration (s : Signal) : ℚ := (s.nsamples : ℚ) / s.sample_rate

/-- The rectangularity invariant of §3: all observations share `nsamples`. -/
def Signal.Rect (s : Signal) : Prop := ∀ row ∈ s.data, row.length = s.nsamples

instance (s : Signal) : Decidable s.Rect := by
  unfold Signal.Rect; infer_instance

/-- Modelled from the spec (§4.1): the arithmetic mean of a list of values. -/
def qmean (l : List Value) : Value := l.sum / (l.length : ℚ)

/-- Modelled from the spec (§4.1): the median of a list of values. -/
def qmedian (l : List Value) : Value :=
  let s := l.mergeSort (· ≤ ·)
  if s.length % 2 = 1 then s.getD (s.length / 2) 0
  else (s.getD (s.length / 2 - 1) 0 + s.getD (s.length / 2) 0) / 2

/-- Modelled from the spec (§4.1): the minimum of a list of values. -/
def qmin (l : List Value) : Value := l.foldr min (l.headD 0)

/-- Modelled from the spec (§4.1): the maximum of a list of values. -/
def qmax (l : List Value) : Value := l.foldr max (l.headD 0)

/-- Modelled from the spec: an executable square-root approximation on
exact rationals, standing in for the implementation's floating-point
square root; no claim under verification depends on its value. -/
def ratSqrt (q : ℚ) : ℚ :=
  if q ≤ 0 then 0 else ((q.num.toNat * q.den).sqrt : ℚ) / (q.den : ℚ)

/-- Modelled from the spec (§4.1): the standard deviation of a list of
values (square root of the population variance). -/
def qstd (l : List Value) : Value :=
  ratSqrt (qmean (l.map (fun x => (x - qmean l) ^ 2)))

/-- Modelled from the spec (§4.1, §9): the fixed, closed registry of
recognized reduction operations, mapping a string name to its
implementation. -/
def aggRegistry : List (String × (List Value → Value)) :=
  [("mean", qmean), ("median", qmedian), ("min", qmin), ("max", qmax), ("std", qstd)]

/-- The names accepted by the aggregation registry. -/
def aggRegistryNames : List String := aggRegistry.map Prod.fst

/-- Modelled from the spec (§7): errors raised by `Signal.aggregate`. -/
inductive AggError where
  | aggregationError
  | unknownAggregator
deriving DecidableEq, Repr

/-- Modelled from the spec (§4.1): `Signal.aggregate` reduces along the
observation axis. A string-valued `func` is resolved against the fixed
registry; an unknown name fails with `UnknownAggregatorError`. The spec
requires `nobs > 1`, failing loudly with `AggregationError` otherwise
(the recommended strict policy). The result is a new 1-observation
Signal with the same `sample_rate`, `unit` and `marks` (copied), and
name `"original#func"`; the original is unmodified. -/
def Signal.aggregate (s : Signal) (func : String) : Except AggError Signal :=
  match aggRegistry.lookup func with
  | none => .error .unknownAggregator
  | some f =>
    if s.nobs ≤ 1 then .error .aggregationError
    else .ok
      { name := s.name ++ ("#" ++ func)
        unit := s.unit
        data := [(List.range s.nsamples).map (fun j => f (s.data.map (fun row => row.getD j 0)))]
        sample_rate := s.sample_rate
        marks := s.marks }

/-- Modelled from the spec (§3, Session): metadata is a mapping of string
key to scalar/string value, embedded as an association list with
first-match lookup semantics. -/
abbrev Meta := List (String × String)

/-- Modelled from the spec (§3 Data model, Session): a container bundling
a `name`, arbitrary `metadata`, a mapping of named Signals, and a mapping
of named discrete-event-time arrays (`epocs`). -/
structure Session where
  name : String
  metadata : Meta
  signals : List (String × Signal)
  epocs : List (String × List ℚ)
deriving DecidableEq, Repr

/-- A session is non-empty when it carries at least one signal, epoc
array, or metadata entry. -/
def Session.NonEmpty (s : Session) : Prop :=
  s.signals ≠ [] ∨ s.epocs ≠ [] ∨ s.metadata ≠ []

/-- All signals of the session satisfy the rectangularity invariant. -/
def Session.WF (s : Session) : Prop := ∀ p ∈ s.signals, Signal.Rect p.2

instance (s : Session) : Decidable s.WF := by
  unfold Session.WF; infer_instance

instance (s : Session) : Decidable s.NonEmpty := by
  unfold Session.NonEmpty; infer_instance

/-- Modelled from the spec (§4.6, §6 Cache directory layout): the
serialized, self-describing form of a Signal as stored in a cache entry —
attributes plus the observation array flattened alongside its shape,
the way an array is laid out in an HDF5/npz-style container. -/
structure StoredSignal where
  name : String
  unit : Option String
  nobs : Nat
  nsamples : Nat
  flat : List Value
  sample_rate : ℚ
  marks : List ℚ
deriving DecidableEq, Repr

/-- Reassemble a rectangular 2-D array from its flattened form and shape. -/
def unflatten (nobs nsamples : Nat) (l : List Value) : List (List Value) :=
  match nobs with
  | 0 => []
  | n + 1 => l.take nsamples :: unflatten n nsamples (l.drop nsamples)

/-- Modelled from the spec (§4.6): serialize a Signal into a cache entry. -/
def encodeSignal (s : Signal) : StoredSignal :=
  { name := s.name
    unit := s.unit
    nobs := s.nobs
    nsamples := s.nsamples
    flat := s.data.flatten
    sample_rate := s.sample_rate
    marks := s.marks }

/-- Modelled from the spec (§4.6): deserialize a Signal from a cache entry. -/
def decodeSignal (st : StoredSignal) : Signal :=
  { name := st.name
    unit := st.unit
    data := unflatten st.nobs st.nsamples st.flat
    sample_rate := st.sample_rate
    marks := st.marks }

/-- Modelled from the spec (§4.6): the serialized form of a Session as a
cache entry value: metadata, serialized signals, and epoc arrays. -/
structure StoredSession where
  name : String
  metadata : Meta
  signals : List (String × StoredSignal)
  epocs : List (String × List ℚ)
deriving DecidableEq, Repr

/-- Modelled from the spec (§4.6): serialize a Session. -/
def encodeSession (s : Session) : StoredSession :=
  { name := s.name
    metadata := s.metadata
    signals := s.signals.map (fun p => (p.1, encodeSignal p.2))
    epocs := s.epocs }

/-- Modelled from the spec (§4.6): deserialize a Session. -/
def decodeSession (st : StoredSession) : Session :=
  { name := st.name
    metadata := st.metadata
    signals := st.signals.map (fun p => (p.1, decodeSignal p.2))
    epocs := st.epocs }

/-- Modelled from the spec (§4.6): the Cache, a persistent keyed store of
serialized Sessions, one entry per cache key. -/
abbrev Cache := List (String × StoredSession)

/-- Modelled from the spec (§4.6): `put(key, session)` stores the
serialized session under the key. -/
def cachePut (key : String) (s : Session) (c : Cache) : Cache :=
  (key, encodeSession s) :: c

/-- Modelled from the spec (§4.6): `get(key)` retrieves and deserializes
the session stored under the key, or reports absent. -/
def cacheGet (key : String) (c : Cache) : Option Session :=
  (c.lookup key).map decodeSession

/-- Modelled from the spec (§7): errors surfaced by loaders/processors.
`malformedSource` is `MalformedSourceError`: a Loader could not parse its
source. -/
inductive LoadError where
  | malformedSource
  | other
deriving DecidableEq, Repr

/-- Modelled from the spec (§4.3, §4.6): a Loader is referred to by its
stable declared identity (its fully-qualified name); the environment maps
that identity to the loader's behavior, `load(session, path)`, which
returns the populated session or raises. -/
abbrev LoaderEnv := String → Session → List String → Except LoadError Session

/-- Modelled from the spec (§4.4): a Processor identity is mapped by the
environment to its behavior `process(session)`. -/
abbrev ProcEnv := String → Session → Except LoadError Session

/-- Modelled from the spec (§3, DataTypeAdaptor): a located-but-not-yet-
loaded description of one prospective session: a name, a source path
(as path components), and an ordered list of Loader identities. -/
structure DataTypeAdaptor where
  name : String
  path : List String
  loaders : List String
deriving DecidableEq, Repr, Inhabited

/-- Modelled from the spec (§4.6): the cache key, derived from the source
path identity together with the loader and processor chain identities —
stable across process runs, and changing whenever the pipeline changes. -/
def cacheKey (procs : List String) (a : DataTypeAdaptor) : String :=
  String.intercalate "/" a.path ++ "|" ++
    String.intercalate "," a.loaders ++ "|" ++ String.intercalate "," procs

/-- Modelled from the spec (§3, Session lifecycle): a Session is
constructed empty and populated incrementally by the Loaders. -/
def emptySession (name : String) : Session :=
  { name := name, metadata := [], signals := [], epocs := [] }

/-- Modelled from the spec (§4.3): run a loader chain in list order,
threading the session; stops at the first loader failure. Also counts
how many Loader invocations were issued. -/
def runLoaders (env : LoaderEnv) (path : List String) :
    List String → Session → Except LoadError Session × Nat
  | [], s => (.ok s, 0)
  | l :: rest, s =>
    match env l s path with
    | .error e => (.error e, 1)
    | .ok s' =>
      let r := runLoaders env path rest s'
      (r.1, r.2 + 1)

/-- Modelled from the spec (§4.4): run the processor chain, strictly
after all Loaders complete. -/
def runProcs (penv : ProcEnv) : List String → Session → Except LoadError Session
  | [], s => .ok s
  | p :: rest, s =>
    match penv p s with
    | .error e => .error e
    | .ok s' => runProcs penv rest s'

/-- Modelled from the spec (§4.7): the unit of work for one adaptor — run
its Loaders in order from an empty session named after the adaptor, then
any Processors. Returns the outcome and the number of Loader invocations
issued. -/
def computeAdaptor (env : LoaderEnv) (penv : ProcEnv) (procs : List String)
    (a : DataTypeAdaptor) : Except LoadError Session × Nat :=
  let r := runLoaders env a.path a.loaders (emptySession a.name)
  match r.1 with
  | .error e => (.error e, r.2)
  | .ok s => (runProcs penv procs s, r.2)

/-- Modelled from the spec (§7): a per-adaptor failure diagnostic,
recorded alongside the collection. -/
structure Diag where
  adaptor : String
  error : LoadError
deriving DecidableEq, Repr

/-- Modelled from the spec (§4.7): the per-adaptor step of the
orchestrator: check the Cache by derived key; on hit use the cached
Session (zero Loader invocations); on miss run the adaptor's unit of work
and, on success, write the result to the Cache. `useCache = false`
makes every get absent and every put a no-op. -/
def orchStep (useCache : Bool) (env : LoaderEnv) (penv : ProcEnv)
    (procs : List String) (c : Cache) (a : DataTypeAdaptor) :
    Except LoadError Session × Cache × Nat :=
  let key := cacheKey procs a
  match (if useCache then cacheGet key c else none) with
  | some s => (.ok s, c, 0)
  | none =>
    let r := computeAdaptor env penv procs a
    match r.1 with
    | .ok s => (.ok s, (if useCache then cachePut key s c else c), r.2)
    | .error e => (.error e, c, r.2)

/-- The outcome of a whole orchestrated load: the assembled sessions in
discovery order, the failure diagnostics, the final cache, and the total
number of Loader invocations issued. -/
structure LoadResult where
  sessions : List Session
  diags : List Diag
  cache : Cache
  invocations : Nat
deriving Repr

/-- Modelled from the spec (§4.7, §5): the Load Orchestrator over the
adaptors produced by the Locator, sequential execution
(`max_workers = 1`): adaptors are processed in discovery order, a failed
adaptor is recorded and excluded without aborting the batch, and results
are assembled preserving discovery order. -/
def orchLoad (useCache : Bool) (env : LoaderEnv) (penv : ProcEnv)
    (procs : List String) : List DataTypeAdaptor → Cache → LoadResult
  | [], c => { sessions := [], diags := [], cache := c, invocations := 0 }
  | a :: rest, c =>
    let step := orchStep useCache env penv procs c a
    let tail := orchLoad useCache env penv procs rest step.2.1
    match step.1 with
    | .ok s =>
      { sessions := s :: tail.sessions
        diags := tail.diags
        cache := tail.cache
        invocations := step.2.2 + tail.invocations }
    | .error e =>
      { sessions := tail.sessions
        diags := { adaptor := a.name, error := e } :: tail.diags
        cache := tail.cache
        invocations := step.2.2 + tail.invocations }

/-- Modelled from the spec (§5): the deterministic outcome of one
adaptor's task in the pooled run: the cache lookup happens in the
orchestrating process before submission, against the cache as of this
invocation's start (workers only ever write other adaptors' keys); a miss
dispatches the pure unit of work to a worker. -/
def parResult (useCache : Bool) (env : LoaderEnv) (penv : ProcEnv)
    (procs : List String) (c0 : Cache) (a : DataTypeAdaptor) :
    Except LoadError Session :=
  match (if useCache then cacheGet (cacheKey procs a) c0 else none) with
  | some s => .ok s
  | none => (computeAdaptor env penv procs a).1

/-- Modelled from the spec (§4.7, §5): assemble per-adaptor outcomes,
given in discovery order, into the collection and diagnostics:
successes in order, each failure recorded and excluded. -/
def assembleResults : List (DataTypeAdaptor × Except LoadError Session) →
    List Session × List Diag
  | [] => ([], [])
  | (a, r) :: rest =>
    let tail := assembleResults rest
    match r with
    | .ok s => (s :: tail.1, tail.2)
    | .error e => (tail.1, { adaptor := a.name, error := e } :: tail.2)

/-- Modelled from the spec (§5): the pooled run with a worker pool.
Tasks are submitted in discovery order; `order` is the completion order
(an arbitrary permutation of the task indices); each completion event
delivers `(index, outcome)` on the result channel; the collector places
outcomes back into submission-order slots, so results interleave
correctly regardless of which worker finishes first. -/
def parLoad (order : List Nat) (useCache : Bool) (env : LoaderEnv)
    (penv : ProcEnv) (procs : List String) (adaptors : List DataTypeAdaptor)
    (c0 : Cache) : List Session × List Diag :=
  let events := order.map (fun i =>
    (i, parResult useCache env penv procs c0 (adaptors.getD i default)))
  let outcomes := (List.range adaptors.length).filterMap
    (fun i => (events.lookup i).map (fun r => (adaptors.getD i default, r)))
  assembleResults outcomes

/-- Modelled from the spec (§7): manifest resolution errors.
`ambiguousManifestKey` is `AmbiguousManifestKeyError`: the manifest has
duplicate index values. -/
inductive ManifestError where
  | ambiguousManifestKey
deriving DecidableEq, Repr

/-- Modelled from the spec (§4.5): the mapping built by the Manifest
Resolver from index value to the row's remaining fields. -/
abbrev ManifestMap := List (String × Meta)

/-- Modelled from the spec (§4.5): resolver construction from the tabular
rows; duplicate index values fail with `AmbiguousManifestKeyError` at
construction time. -/
def mkResolver (rows : List (String × Meta)) : Except ManifestError ManifestMap :=
  if (rows.map Prod.fst).Nodup then .ok rows else .error .ambiguousManifestKey

/-- Modelled from the spec (§4.5, §8): warning-level diagnostics recorded
by the Manifest Resolver. -/
inductive MDiag where
  | noManifestRow (session : String)
  | unusedRows (rows : List String)
deriving DecidableEq, Repr

/-- Modelled from the spec (§4.5): per-session resolution: look up
`session.name` in the mapping; on hit merge the row fields into
`session.metadata` with row fields taking precedence on key collision;
on miss leave the metadata untouched and record a warning-level
diagnostic. -/
def resolveOne (m : ManifestMap) (s : Session) : Session × List MDiag :=
  match m.lookup s.name with
  | some fields => ({ s with metadata := fields ++ s.metadata }, [])
  | none => (s, [.noManifestRow s.name])

/-- Modelled from the spec (§8 Manifest join): the manifest rows whose
index value matches no session name. -/
def unusedManifestRows (m : ManifestMap) (sessions : List Session) : List String :=
  (m.map Prod.fst).filter (fun k => sessions.all (fun s => s.name ≠ k))

/-- Modelled from the spec (§4.5, §8): resolve every session against the
manifest, collecting the per-session warnings and reporting any unused
manifest rows in a diagnostic. -/
def resolveAll (m : ManifestMap) (sessions : List Session) :
    List Session × List MDiag :=
  let resolved := sessions.map (resolveOne m)
  let unused := unusedManifestRows m sessions
  (resolved.map Prod.fst,
   (resolved.map Prod.snd).flatten ++
     (if unused = [] then [] else [.unusedRows unused]))

/-- Modelled from the spec (§4.7, §6): the load entry point with a
manifest: the resolver is constructed first — duplicate manifest index
values are fatal before any loading work — then the orchestrated load
runs and the resolver is applied to every successfully loaded session. -/
def loadData (useCache : Bool) (env : LoaderEnv) (penv : ProcEnv)
    (procs : List String) (rows : List (String × Meta))
    (adaptors : List DataTypeAdaptor) (c0 : Cache) :
    Except ManifestError (List Session × List MDiag × List Diag × Cache × Nat) :=
  match mkResolver rows with
  | .error e => .error e
  | .ok m =>
    let r := orchLoad useCache env penv procs adaptors c0
    let res := resolveAll m r.sessions
    .ok (res.1, res.2, r.diags, r.cache, r.invocations)

/-- Modelled from the spec (§6, docs/loading.md): the discovery
strategies recognized by the load entry point's `locator` option. -/
inductive LocatorKind where
  | tdt
  | ma
  | auto
deriving DecidableEq, Repr

/-- Modelled from the spec (docs/loading.md §DataLocators): resolution of
the `locator` strings: "tdt" finds TDT blocks, "ma" finds Med-Associates
data files, "auto" a combination of the two; anything else is not a
recognized locator string. -/
def resolveLocator (s : String) : Option LocatorKind :=
  if s = "tdt" then some .tdt
  else if s = "ma" then some .ma
  else if s = "auto" then some .auto
  else none

/-- Modelled from the spec (docs/loading.md §Manifest): the Session name
for a TDT session is the block name — the final component of the block's
directory path. -/
def tdtSessionName (blockPath : List String) : String := blockPath.getLastD ""

/-- Modelled from the spec (docs/loading.md §Manifest): strip all
extensions from a file name — keep the characters before the first dot. -/
def stripExtensions (s : String) : String :=
  String.mk (s.data.takeWhile (fun ch => ch ≠ '.'))

/-- Modelled from the spec (docs/loading.md §Manifest): the Session name
for a Med-Associates session is the source file's basename with no
extensions. -/
def maSessionName (filePath : List String) : String :=
  stripExtensions (filePath.getLastD "")

/-! ### Concrete fixtures used to exercise the model -/

/-- A two-observation signal used as a concrete fixture. -/
def sigTwoObs : Signal :=
  { name := "raw", unit := some "mV", data := [[1, 3], [3, 5]],
    sample_rate := 10, marks := [1/2] }

/-- A small non-empty session used as a concrete fixture. -/
def sessA : Session :=
  { name := "A", metadata := [("x", "1")],
    signals := [("sig", sigTwoObs)], epocs := [("lick", [1, 2])] }

/-- A session without a manifest row, used as a concrete fixture. -/
def sessB : Session :=
  { name := "B", metadata := [("x", "1")], signals := [], epocs := [] }

/-- A loader environment fixture: the loader named "bad" raises
`MalformedSourceError`, every other loader records the source path in the
session metadata. -/
def envFix : LoaderEnv := fun l s p =>
  if l = "bad" then .error .malformedSource
  else .ok { s with metadata := ("src", String.intercalate "/" p) :: s.metadata }

/-- A processor environment fixture: every processor is the identity. -/
def penvFix : ProcEnv := fun _ s => .ok s

/-- Adaptor fixture that loads successfully. -/
def adA : DataTypeAdaptor := { name := "A", path := ["rootA"], loaders := ["good"] }

/-- Adaptor fixture whose loader raises `MalformedSourceError`. -/
def adB : DataTypeAdaptor := { name := "B", path := ["rootB"], loaders := ["bad"] }

/-- Adaptor fixture that loads successfully. -/
def adC : DataTypeAdaptor := { name := "C", path := ["rootC"], loaders := ["good"] }

/-- The session produced by running `adA` under `envFix`. -/
def sessFromA : Session :=
  { name := "A", metadata := [("src", "rootA")], signals := [], epocs := [] }

/-- The session produced by running `adC` under `envFix`. -/
def sessFromC : Session :=
  { name := "C", metadata := [("src", "rootC")], signals := [], epocs := [] }

/-- A manifest fixture with rows for sessions "A" and "C". -/
def maniFix : ManifestMap :=
  [("A", [("geno", "WT"), ("x", "9")]), ("C", [("geno", "KO")])]

/-! ## Helper lemmas -/

theorem takeWhile_all {p : α → Bool} : ∀ {l : List α}, (∀ a ∈ l, p a = true) →
    l.takeWhile p = l
  | [], _ => rfl
  | a :: l, h => by
    rw [List.takeWhile_cons_of_pos (h a (List.mem_cons_self a l))]
    rw [takeWhile_all (fun b hb => h b (List.mem_cons_of_mem a hb))]

theorem takeWhile_append_all {p : α → Bool} {l₁ l₂ : List α}
    (h : ∀ a ∈ l₁, p a = true) :
    (l₁ ++ l₂).takeWhile p = l₁ ++ l₂.takeWhile p := by
  induction l₁ with
  | nil => simp
  | cons a l ih =>
    rw [List.cons_append, List.takeWhile_cons_of_pos (h a (List.mem_cons_self a l)),
      ih (fun b hb => h b (List.mem_cons_of_mem a hb)), List.cons_append]

theorem unflatten_flatten (ns : Nat) :
    ∀ d : List (List Value), (∀ r ∈ d, r.length = ns) →
      unflatten d.length ns d.flatten = d
  | [], _ => rfl
  | r :: d, h => by
    have hr : r.length = ns := h r (List.mem_cons_self r d)
    rw [List.length_cons, List.flatten_cons]
    show (r ++ d.flatten).take ns :: unflatten d.length ns ((r ++ d.flatten).drop ns)
      = r :: d
    rw [List.take_left' hr, List.drop_left' hr,
      unflatten_flatten ns d (fun t ht => h t (List.mem_cons_of_mem r ht))]

theorem decodeSignal_encodeSignal (s : Signal) (h : s.Rect) :
    decodeSignal (encodeSignal s) = s := by
  unfold decodeSignal encodeSignal
  cases s with
  | mk name unit data sample_rate marks =>
    simp only [Signal.mk.injEq, and_true, true_and]
    exact unflatten_flatten _ data h

theorem map_id_of_mem {f : α → α} : ∀ {l : List α}, (∀ a ∈ l, f a = a) →
    l.map f = l
  | [], _ => rfl
  | a :: l, h => by
    rw [List.map_cons, h a (List.mem_cons_self a l),
      map_id_of_mem (fun b hb => h b (List.mem_cons_of_mem a hb))]

theorem decodeSession_encodeSession (s : Session) (h : s.WF) :
    decodeSession (encodeSession s) = s := by
  unfold decodeSession encodeSession
  cases s with
  | mk name metadata signals epocs =>
    simp only [Session.mk.injEq, and_true, true_and, List.map_map]
    exact map_id_of_mem (fun p hp => by
      simp only [Function.comp_apply]
      rw [decodeSignal_encodeSignal p.2 (h p hp)])

theorem cacheGet_cachePut_self (k : String) (s : Session) (c : Cache) :
    cacheGet k (cachePut k s c) = some (decodeSession (encodeSession s)) := by
  rw [cachePut, cacheGet, List.lookup_cons_self, Option.map_some']

theorem cacheGet_cachePut_ne {k k' : String} (h : k' ≠ k) (s : Session) (c : Cache) :
    cacheGet k' (cachePut k s c) = cacheGet k' c := by
  rw [cachePut, cacheGet, cacheGet, List.lookup_cons,
    beq_eq_false_iff_ne.mpr h]

theorem orchStep_hit {e : LoaderEnv} {p : ProcEnv} {ps : List String}
    {c : Cache} {a : DataTypeAdaptor} {s : Session}
    (h : cacheGet (cacheKey ps a) c = some s) :
    orchStep true e p ps c a = (.ok s, c, 0) := by
  simp only [orchStep, if_true, h]

theorem orchStep_miss_ok {e : LoaderEnv} {p : ProcEnv} {ps : List String}
    {c : Cache} {a : DataTypeAdaptor} {s : Session}
    (h : cacheGet (cacheKey ps a) c = none)
    (hc : (computeAdaptor e p ps a).1 = .ok s) :
    orchStep true e p ps c a =
      (.ok s, cachePut (cacheKey ps a) s c, (computeAdaptor e p ps a).2) := by
  simp only [orchStep, if_true, h, hc]

theorem orchStep_miss_err {e : LoaderEnv} {p : ProcEnv} {ps : List String}
    {c : Cache} {a : DataTypeAdaptor} {er : LoadError}
    (h : cacheGet (cacheKey ps a) c = none)
    (hc : (computeAdaptor e p ps a).1 = .error er) :
    orchStep true e p ps c a = (.error er, c, (computeAdaptor e p ps a).2) := by
  simp only [orchStep, if_true, h, hc]

theorem orchLoad_cons_ok {u : Bool} {e : LoaderEnv} {p : ProcEnv}
    {ps : List String} {a : DataTypeAdaptor} {rest : List DataTypeAdaptor}
    {c : Cache} {s : Session}
    (h : (orchStep u e p ps c a).1 = .ok s) :
    orchLoad u e p ps (a :: rest) c =
      { sessions := s :: (orchLoad u e p ps rest (orchStep u e p ps c a).2.1).sessions
        diags := (orchLoad u e p ps rest (orchStep u e p ps c a).2.1).diags
        cache := (orchLoad u e p ps rest (orchStep u e p ps c a).2.1).cache
        invocations := (orchStep u e p ps c a).2.2 +
          (orchLoad u e p ps rest (orchStep u e p ps c a).2.1).invocations } := by
  simp only [orchLoad, h]

theorem orchLoad_cons_err {u : Bool} {e : LoaderEnv} {p : ProcEnv}
    {ps : List String} {a : DataTypeAdaptor} {rest : List DataTypeAdaptor}
    {c : Cache} {er : LoadError}
    (h : (orchStep u e p ps c a).1 = .error er) :
    orchLoad u e p ps (a :: rest) c =
      { sessions := (orchLoad u e p ps rest (orchStep u e p ps c a).2.1).sessions
        diags := { adaptor := a.name, error := er } ::
          (orchLoad u e p ps rest (orchStep u e p ps c a).2.1).diags
        cache := (orchLoad u e p ps rest (orchStep u e p ps c a).2.1).cache
        invocations := (orchStep u e p ps c a).2.2 +
          (orchLoad u e p ps rest (orchStep u e p ps c a).2.1).invocations } := by
  simp only [orchLoad, h]

theorem orchStep_cache_lookup {u : Bool} {e : LoaderEnv} {p : ProcEnv}
    {ps : List String} {c : Cache} {a : DataTypeAdaptor} {k : String}
    (h : cacheKey ps a ≠ k) :
    cacheGet k (orchStep u e p ps c a).2.1 = cacheGet k c := by
  rw [orchStep]
  split
  · rfl
  · cases hc : (computeAdaptor e p ps a).1 with
    | ok s =>
      simp only [hc]
      by_cases hu : u
      · simp only [if_pos hu]
        exact cacheGet_cachePut_ne (Ne.symm h) _ _
      · simp only [if_neg hu]
    | error er => simp only [hc]

theorem orchLoad_cache_lookup {u : Bool} {e : LoaderEnv} {p : ProcEnv}
    {ps : List String} {k : String} :
    ∀ {adaptors : List DataTypeAdaptor} {c : Cache},
      (∀ a ∈ adaptors, cacheKey ps a ≠ k) →
      cacheGet k (orchLoad u e p ps adaptors c).cache = cacheGet k c
  | [], _, _ => rfl
  | a :: rest, c, h => by
    have hcons : (orchLoad u e p ps (a :: rest) c).cache =
        (orchLoad u e p ps rest (orchStep u e p ps c a).2.1).cache := by
      simp only [orchLoad]
      split <;> rfl
    rw [hcons,
      orchLoad_cache_lookup (fun b hb => h b (List.mem_cons_of_mem a hb)),
      orchStep_cache_lookup (h a (List.mem_cons_self a rest))]

theorem orchLoad_eq_pure {e : LoaderEnv} {p : ProcEnv} {ps : List String} :
    ∀ {adaptors : List DataTypeAdaptor} {c c0 : Cache},
      ((adaptors.map (cacheKey ps)).Nodup) →
      (∀ a ∈ adaptors, cacheGet (cacheKey ps a) c = cacheGet (cacheKey ps a) c0) →
      (orchLoad true e p ps adaptors c).sessions =
        (assembleResults (adaptors.map (fun a => (a, parResult true e p ps c0 a)))).1 ∧
      (orchLoad true e p ps adaptors c).diags =
        (assembleResults (adaptors.map (fun a => (a, parResult true e p ps c0 a)))).2
  | [], _, _, _, _ => ⟨rfl, rfl⟩
  | a :: rest, c, c0, hnd, hagree => by
    have hnd' : ((rest.map (cacheKey ps)).Nodup) := (List.nodup_cons.mp hnd).2
    have hkey : ∀ b ∈ rest, cacheKey ps b ≠ cacheKey ps a := by
      intro b hb he
      exact (List.nodup_cons.mp hnd).1 (he ▸ List.mem_map_of_mem (cacheKey ps) hb)
    have hagree' : ∀ b ∈ rest, cacheGet (cacheKey ps b) c = cacheGet (cacheKey ps b) c0 :=
      fun b hb => hagree b (List.mem_cons_of_mem a hb)
    cases hget : cacheGet (cacheKey ps a) c with
    | some s =>
      have hpar : parResult true e p ps c0 a = .ok s := by
        rw [parResult]
        simp only [if_true]
        rw [← hagree a (List.mem_cons_self a rest), hget]
      have hstep := orchStep_hit (e := e) (p := p) hget
      have h1 : (orchStep true e p ps c a).1 = .ok s := by rw [hstep]
      have h2 : (orchStep true e p ps c a).2.1 = c := by rw [hstep]
      have ih := @orchLoad_eq_pure e p ps rest c c0 hnd' hagree'
      rw [orchLoad_cons_ok h1, h2, List.map_cons, hpar]
      exact ⟨by rw [assembleResults, ih.1], by rw [assembleResults, ih.2]⟩
    | none =>
      have hpar0 : parResult true e p ps c0 a = (computeAdaptor e p ps a).1 := by
        rw [parResult]
        simp only [if_true]
        rw [← hagree a (List.mem_cons_self a rest), hget]
      cases hcomp : (computeAdaptor e p ps a).1 with
      | ok s =>
        have hpar : parResult true e p ps c0 a = .ok s := by rw [hpar0, hcomp]
        have hstep := orchStep_miss_ok (e := e) (p := p) hget hcomp
        have h1 : (orchStep true e p ps c a).1 = .ok s := by rw [hstep]
        have h2 : (orchStep true e p ps c a).2.1 = cachePut (cacheKey ps a) s c := by
          rw [hstep]
        have hagree2 : ∀ b ∈ rest,
            cacheGet (cacheKey ps b) (cachePut (cacheKey ps a) s c) =
              cacheGet (cacheKey ps b) c0 := by
          intro b hb
          rw [cacheGet_cachePut_ne (hkey b hb), hagree' b hb]
        have ih := @orchLoad_eq_pure e p ps rest
          (cachePut (cacheKey ps a) s c) c0 hnd' hagree2
        rw [orchLoad_cons_ok h1, h2, List.map_cons, hpar]
        exact ⟨by rw [assembleResults, ih.1], by rw [assembleResults, ih.2]⟩
      | error er =>
        have hpar : parResult true e p ps c0 a = .error er := by rw [hpar0, hcomp]
        have hstep := orchStep_miss_err (e := e) (p := p) hget hcomp
        have h1 : (orchStep true e p ps c a).1 = .error er := by rw [hstep]
        have h2 : (orchStep true e p ps c a).2.1 = c := by rw [hstep]
        have ih := @orchLoad_eq_pure e p ps rest c c0 hnd' hagree'
        rw [orchLoad_cons_err h1, h2, List.map_cons, hpar]
        exact ⟨by rw [assembleResults, ih.1], by rw [assembleResults, ih.2]⟩

theorem filterMap_eq_map_of_some {g : α → Option β} {h : α → β} :
    ∀ {l : List α}, (∀ a ∈ l, g a = some (h a)) → l.filterMap g = l.map h
  | [], _ => rfl
  | a :: l, hyp => by
    rw [List.filterMap_cons, hyp a (List.mem_cons_self a l),
      filterMap_eq_map_of_some (fun b hb => hyp b (List.mem_cons_of_mem a hb)),
      List.map_cons]

theorem range_map_getD {β : Type _} (f : α → β) (d : α) :
    ∀ l : List α,
      (List.range l.length).map (fun i => f (l.getD i d)) = l.map f
  | [] => rfl
  | a :: l => by
    have hcomp : ((fun i => f ((a :: l).getD i d)) ∘ Nat.succ) =
        (fun i => f (l.getD i d)) := rfl
    rw [List.length_cons, List.range_succ_eq_map, List.map_cons, List.map_map,
      hcomp, range_map_getD f d l, List.map_cons, List.getD_cons_zero]

theorem parLoad_eq_pure {u : Bool} {e : LoaderEnv} {p : ProcEnv}
    {ps : List String} {adaptors : List DataTypeAdaptor} {c0 : Cache}
    {order : List Nat} (hperm : order.Perm (List.range adaptors.length)) :
    parLoad order u e p ps adaptors c0 =
      assembleResults (adaptors.map (fun a => (a, parResult u e p ps c0 a))) := by
  rw [parLoad]
  have hsome : ∀ i ∈ List.range adaptors.length,
      ((order.map (fun i =>
          (i, parResult u e p ps c0 (adaptors.getD i default)))).lookup i).map
          (fun r => (adaptors.getD i default, r)) =
        some (adaptors.getD i default,
          parResult u e p ps c0 (adaptors.getD i default)) := by
    intro i hi
    rw [List.lookup_graph (fun j => parResult u e p ps c0 (adaptors.getD j default))
      (hperm.mem_iff.mpr hi), Option.map_some']
  rw [filterMap_eq_map_of_some hsome,
    range_map_getD (fun a => (a, parResult u e p ps c0 a)) default adaptors]

/-! ## Claim theorems -/

/-- C9: for every Signal, the derived attribute `duration` equals
`nsamples` divided by `sample_rate` — a wall-clock amount of seconds,
under the invariant `sample_rate > 0`. -/
theorem duration_eq_nsamples_div_rate (s : Signal) (h : 0 < s.sample_rate) :
    s.duration = (s.nsamples : ℚ) / s.sample_rate ∧
    s.duration * s.sample_rate = (s.nsamples : ℚ) := by
  refine ⟨rfl, ?_⟩
  rw [Signal.duration, div_mul_cancel₀ _ (ne_of_gt h)]

/-- Witness for C9 at a concrete signal. -/
theorem duration_eq_nsamples_div_rate_witness :
    0 < sigTwoObs.sample_rate ∧
    (sigTwoObs.duration = (sigTwoObs.nsamples : ℚ) / sigTwoObs.sample_rate ∧
     sigTwoObs.duration * sigTwoObs.sample_rate = (sigTwoObs.nsamples : ℚ)) :=
  ⟨by norm_num [sigTwoObs], duration_eq_nsamples_div_rate sigTwoObs (by norm_num [sigTwoObs])⟩

/-- C7: aggregating a Signal with `nobs = n > 1` by "mean" yields a new
Signal with one observation, `nsamples` unchanged, per-sample values
exactly the arithmetic mean across the `n` observations, the same
`sample_rate` and `unit`, marks copied unchanged, and name
`original_name ++ "#mean"`; the original Signal is a distinct,
unmodified value. -/
theorem aggregate_mean_spec (s : Signal) (n : Nat) (hn : s.nobs = n) (h1 : 1 < n) :
    ∃ t, s.aggregate "mean" = .ok t ∧
      t.nobs = 1 ∧
      t.nsamples = s.nsamples ∧
      (∀ j, j < s.nsamples →
        (t.data.headD []).getD j 0 =
          (s.data.map (fun row => row.getD j 0)).sum / (n : ℚ)) ∧
      t.sample_rate = s.sample_rate ∧ t.unit = s.unit ∧ t.marks = s.marks ∧
      t.name = s.name ++ "#mean" := by
  have hlk : aggRegistry.lookup "mean" = some qmean := rfl
  have hle : ¬ s.nobs ≤ 1 := by omega
  refine ⟨{ name := s.name ++ ("#" ++ "mean"), unit := s.unit,
            data := [(List.range s.nsamples).map
              (fun j => qmean (s.data.map (fun row => row.getD j 0)))],
            sample_rate := s.sample_rate, marks := s.marks },
    ?_, rfl, ?_, ?_, rfl, rfl, rfl, ?_⟩
  · rw [Signal.aggregate, hlk]
    simp only [if_neg hle]
  · simp [Signal.nsamples]
  · intro j hj
    simp only [List.headD_cons, List.getD_eq_getElem?_getD, List.getElem?_map,
      List.getElem?_range hj, Option.map_some', Option.getD_some]
    simp only [qmean]
    have hlen : (List.map (fun row => row[j]?.getD 0) s.data).length = n := by
      rw [List.length_map]; exact hn
    rw [hlen]
  · show s.name ++ ("#" ++ "mean") = s.name ++ "#mean"
    have hs : ("#" ++ "mean" : String) = "#mean" := by decide
    rw [hs]

/-- Witness for C7 at a concrete two-observation signal. -/
theorem aggregate_mean_spec_witness :
    sigTwoObs.nobs = 2 ∧ 1 < 2 ∧
    (∃ t, sigTwoObs.aggregate "mean" = .ok t ∧
      t.nobs = 1 ∧
      t.nsamples = sigTwoObs.nsamples ∧
      (∀ j, j < sigTwoObs.nsamples →
        (t.data.headD []).getD j 0 =
          (sigTwoObs.data.map (fun row => row.getD j 0)).sum / (2 : ℚ)) ∧
      t.sample_rate = sigTwoObs.sample_rate ∧ t.unit = sigTwoObs.unit ∧
      t.marks = sigTwoObs.marks ∧
      t.name = sigTwoObs.name ++ "#mean") :=
  ⟨rfl, by norm_num, aggregate_mean_spec sigTwoObs 2 rfl (by norm_num)⟩

/-- C8: `Signal.aggregate` resolves a string-valued `func` against the
fixed, closed registry whose accepted names are exactly
mean, median, min, max, std; for every string outside that registry the
call fails with `UnknownAggregatorError`, for every signal. -/
theorem aggregate_unknown_name (s : Signal) (func : String)
    (h : func ∉ ["mean", "median", "min", "max", "std"]) :
    aggRegistryNames = ["mean", "median", "min", "max", "std"] ∧
    s.aggregate func = .error .unknownAggregator := by
  refine ⟨rfl, ?_⟩
  simp only [List.mem_cons, List.not_mem_nil, or_false, not_or] at h
  obtain ⟨h1, h2, h3, h4, h5⟩ := h
  rw [Signal.aggregate]
  have hb1 : (func == "mean") = false := beq_eq_false_iff_ne.mpr h1
  have hb2 : (func == "median") = false := beq_eq_false_iff_ne.mpr h2
  have hb3 : (func == "min") = false := beq_eq_false_iff_ne.mpr h3
  have hb4 : (func == "max") = false := beq_eq_false_iff_ne.mpr h4
  have hb5 : (func == "std") = false := beq_eq_false_iff_ne.mpr h5
  have hlk : aggRegistry.lookup func = none := by
    simp [aggRegistry, List.lookup_cons, hb1, hb2, hb3, hb4, hb5]
  rw [hlk]

/-- Witness for C8 at a concrete unknown aggregator name. -/
theorem aggregate_unknown_name_witness :
    "frobnicate" ∉ ["mean", "median", "min", "max", "std"] ∧
    (aggRegistryNames = ["mean", "median", "min", "max", "std"] ∧
     sigTwoObs.aggregate "frobnicate" = .error .unknownAggregator) :=
  ⟨by decide, aggregate_unknown_name sigTwoObs "frobnicate" (by decide)⟩

/-- C10: the load entry point recognizes exactly the locator strings
"tdt", "ma" and "auto" (TDT blocks, Med-Associates files, or both), and
the Session name used as the manifest join key is, for a TDT session,
the block name (the final path component of the block), and for a
Med-Associates session, the source file's basename with all extensions
stripped. -/
theorem locator_strings_and_session_names :
    (resolveLocator "tdt" = some .tdt ∧ resolveLocator "ma" = some .ma ∧
     resolveLocator "auto" = some .auto) ∧
    (∀ s, (resolveLocator s).isSome → s = "tdt" ∨ s = "ma" ∨ s = "auto") ∧
    (∀ (dir : List String) (block : String),
      tdtSessionName (dir ++ [block]) = block) ∧
    (∀ (dir : List String) (base : String) (ext : List Char),
      '.' ∉ base.data →
      maSessionName (dir ++ [String.mk (base.data ++ '.' :: ext)]) = base) ∧
    (∀ (dir : List String) (base : String), '.' ∉ base.data →
      maSessionName (dir ++ [base]) = base) := by
  refine ⟨⟨rfl, rfl, rfl⟩, ?_, ?_, ?_, ?_⟩
  · intro s hs
    rw [resolveLocator] at hs
    split_ifs at hs with h1 h2 h3
    · exact Or.inl h1
    · exact Or.inr (Or.inl h2)
    · exact Or.inr (Or.inr h3)
    · simp at hs
  · intro dir block
    rw [tdtSessionName, List.getLastD_concat]
  · intro dir base ext h
    rw [maSessionName, List.getLastD_concat, stripExtensions]
    have hall : ∀ ch ∈ base.data, (ch ≠ '.' : Bool) = true := by
      intro ch hch
      simp only [ne_eq, decide_eq_true_eq]
      exact fun he => h (he ▸ hch)
    show String.mk (((base.data ++ '.' :: ext)).takeWhile (fun ch => ch ≠ '.')) = base
    rw [takeWhile_append_all hall, List.takeWhile_cons_of_neg (by simp), List.append_nil]
  · intro dir base h
    rw [maSessionName, List.getLastD_concat, stripExtensions]
    have hall : ∀ ch ∈ base.data, (ch ≠ '.' : Bool) = true := by
      intro ch hch
      simp only [ne_eq, decide_eq_true_eq]
      exact fun he => h (he ▸ hch)
    rw [takeWhile_all hall]

/-- Witness for C10 at a concrete locator string and concrete TDT/MA
source paths. -/
theorem locator_strings_and_session_names_witness :
    (resolveLocator "xyzzy").isSome = false ∧
    tdtSessionName ["tank1", "block7"] = "block7" ∧
    ('.' ∉ "sess12".data ∧
      maSessionName ["dir", "sess12.txt"] = "sess12") := by
  refine ⟨?_, ?_, by decide, ?_⟩
  · have h := locator_strings_and_session_names.2.1 "xyzzy"
    cases hs : (resolveLocator "xyzzy").isSome with
    | false => rfl
    | true =>
      rcases h hs with h' | h' | h' <;> exact absurd h' (by decide)
  · exact locator_strings_and_session_names.2.2.1 ["tank1"] "block7"
  · have h := locator_strings_and_session_names.2.2.2.1 ["dir"] "sess12"
      "txt".data (by decide)
    have he : String.mk ("sess12".data ++ '.' :: "txt".data) = "sess12.txt" := by decide
    rw [he] at h
    exact h

/-- C1: for every non-empty Session whose signals satisfy the
rectangularity invariant, writing it to the Cache with `put` and reading
it back with `get` under the same key yields exactly the original
Session — metadata, signal arrays with their attributes, and epoc
arrays, with exact numeric equality. -/
theorem cache_roundtrip (key : String) (s : Session) (c : Cache)
    (hwf : s.WF) (_hne : s.NonEmpty) :
    cacheGet key (cachePut key s c) = some s := by
  rw [cachePut, cacheGet, List.lookup_cons_self, Option.map_some',
    decodeSession_encodeSession s hwf]

/-- Witness for C1 at a concrete non-empty session. -/
theorem cache_roundtrip_witness :
    sessA.WF ∧ sessA.NonEmpty ∧
    cacheGet "k1" (cachePut "k1" sessA []) = some sessA :=
  ⟨by decide, by decide, cache_roundtrip "k1" sessA [] (by decide) (by decide)⟩

/-- C5: per-session manifest resolution: on a hit, the matching row's
fields are merged into the session metadata with row fields taking
precedence on key collision while signals, epocs and name are untouched
and no warning is recorded; on a miss, the session is left completely
unchanged and one warning-level diagnostic is recorded; a manifest row
matching no session name is reported in the unused-rows diagnostic of
the batch resolution. -/
theorem manifest_resolution_spec (m : ManifestMap) (s : Session) :
    (∀ fields, m.lookup s.name = some fields →
      (resolveOne m s).2 = [] ∧
      (resolveOne m s).1.name = s.name ∧
      (resolveOne m s).1.signals = s.signals ∧
      (resolveOne m s).1.epocs = s.epocs ∧
      (∀ k v, fields.lookup k = some v →
        (resolveOne m s).1.metadata.lookup k = some v) ∧
      (∀ k, fields.lookup k = none →
        (resolveOne m s).1.metadata.lookup k = s.metadata.lookup k)) ∧
    (m.lookup s.name = none →
      resolveOne m s = (s, [.noManifestRow s.name])) ∧
    (∀ (sessions : List Session) (r : String),
      (r ∈ unusedManifestRows m sessions ↔
        r ∈ m.map Prod.fst ∧ ∀ t ∈ sessions, t.name ≠ r)) ∧
    (∀ sessions : List Session, unusedManifestRows m sessions ≠ [] →
      MDiag.unusedRows (unusedManifestRows m sessions) ∈ (resolveAll m sessions).2) := by
  refine ⟨?_, ?_, ?_, ?_⟩
  · intro fields hlk
    rw [resolveOne, hlk]
    refine ⟨rfl, rfl, rfl, rfl, ?_, ?_⟩
    · intro k v hk
      simp only [List.lookup_append, hk, Option.or_some]
    · intro k hk
      simp only [List.lookup_append, hk, Option.none_or]
  · intro hlk
    rw [resolveOne, hlk]
  · intro sessions r
    rw [unusedManifestRows]
    simp [List.mem_filter, List.all_eq_true]
  · intro sessions hne
    rw [resolveAll]
    simp only [if_neg hne]
    exact List.mem_append_right _ (List.mem_singleton_self _)

/-- Witness for C5: resolution of sessions "A" and "B" against a
manifest with rows "A" and "C". -/
theorem manifest_resolution_spec_witness :
    maniFix.lookup sessA.name = some [("geno", "WT"), ("x", "9")] ∧
    ((resolveOne maniFix sessA).1.metadata.lookup "geno" = some "WT" ∧
     (resolveOne maniFix sessA).1.metadata.lookup "x" = some "9" ∧
     (resolveOne maniFix sessA).2 = []) ∧
    (maniFix.lookup sessB.name = none ∧
     resolveOne maniFix sessB = (sessB, [.noManifestRow "B"])) ∧
    ("C" ∈ unusedManifestRows maniFix [sessA, sessB] ∧
     MDiag.unusedRows (unusedManifestRows maniFix [sessA, sessB]) ∈
       (resolveAll maniFix [sessA, sessB]).2) := by
  have h := manifest_resolution_spec maniFix sessA
  have hB := manifest_resolution_spec maniFix sessB
  have hlkA : maniFix.lookup sessA.name = some [("geno", "WT"), ("x", "9")] := by decide
  have hA := h.1 [("geno", "WT"), ("x", "9")] hlkA
  refine ⟨hlkA, ⟨?_, ?_, hA.1⟩, ⟨by decide, hB.2.1 (by decide)⟩, ?_, ?_⟩
  · exact hA.2.2.2.2.1 "geno" "WT" (by decide)
  · exact hA.2.2.2.2.1 "x" "9" (by decide)
  · exact (h.2.2.1 [sessA, sessB] "C").mpr ⟨by decide, by decide⟩
  · exact h.2.2.2 [sessA, sessB] (by decide)

/-- C6: if the manifest rows contain two or more rows with the same
index value, resolver construction fails with
`AmbiguousManifestKeyError`, and the load entry point then fails before
any session loading or per-session lookup takes place; with unique index
values, construction succeeds. -/
theorem ambiguous_manifest_key_spec (rows : List (String × Meta)) :
    (mkResolver rows = .error .ambiguousManifestKey ↔
      ¬ (rows.map Prod.fst).Nodup) ∧
    (∀ useCache env penv procs adaptors c0,
      ¬ (rows.map Prod.fst).Nodup →
      loadData useCache env penv procs rows adaptors c0 =
        .error .ambiguousManifestKey) := by
  constructor
  · rw [mkResolver]
    split_ifs with hnd
    · exact iff_of_false (fun h => nomatch h) (not_not_intro hnd)
    · exact iff_of_true rfl hnd
  · intro useCache env penv procs adaptors c0 hnd
    rw [loadData, mkResolver, if_neg hnd]

/-- Witness for C6 at a manifest with the duplicated index value "A". -/
theorem ambiguous_manifest_key_spec_witness :
    ¬ ((([("A", ([] : Meta)), ("A", [])]).map Prod.fst).Nodup) ∧
    loadData true envFix penvFix [] [("A", []), ("A", [])] [adA] [] =
      .error .ambiguousManifestKey :=
  ⟨by decide,
   (ambiguous_manifest_key_spec [("A", []), ("A", [])]).2
     true envFix penvFix [] [adA] [] (by decide)⟩

/-- C4: when exactly one of three adaptors raises `MalformedSourceError`
during loading (here the second), the Orchestrator does not abort the
batch: the resulting collection contains exactly the sessions of the
other two adaptors in the original discovery order, and exactly one
failure diagnostic is recorded, naming the failed adaptor. -/
theorem failure_isolation (env : LoaderEnv) (penv : ProcEnv)
    (procs : List String) (a b c : DataTypeAdaptor) (sa sc : Session)
    (hab : cacheKey procs a ≠ cacheKey procs b)
    (hac : cacheKey procs a ≠ cacheKey procs c)
    (hbc : cacheKey procs b ≠ cacheKey procs c)
    (ha : (computeAdaptor env penv procs a).1 = .ok sa)
    (hb : (computeAdaptor env penv procs b).1 = .error .malformedSource)
    (hc : (computeAdaptor env penv procs c).1 = .ok sc) :
    (orchLoad true env penv procs [a, b, c] []).sessions = [sa, sc] ∧
    (orchLoad true env penv procs [a, b, c] []).diags =
      [{ adaptor := b.name, error := .malformedSource }] := by
  have hnd : (([a, b, c].map (cacheKey procs)).Nodup) := by
    simp only [List.map_cons, List.map_nil, List.nodup_cons, List.mem_cons,
      List.not_mem_nil, or_false, not_or, List.nodup_nil, and_true]
    exact ⟨⟨hab, hac⟩, hbc, not_false⟩
  have hpure := @orchLoad_eq_pure env penv procs [a, b, c] [] [] hnd (fun _ _ => rfl)
  have hpa : parResult true env penv procs [] a = .ok sa := by
    simp only [parResult, if_true, cacheGet, List.lookup_nil, Option.map_none']
    exact ha
  have hpb : parResult true env penv procs [] b = .error .malformedSource := by
    simp only [parResult, if_true, cacheGet, List.lookup_nil, Option.map_none']
    exact hb
  have hpc : parResult true env penv procs [] c = .ok sc := by
    simp only [parResult, if_true, cacheGet, List.lookup_nil, Option.map_none']
    exact hc
  constructor
  · rw [hpure.1]
    simp [assembleResults, hpa, hpb, hpc]
  · rw [hpure.2]
    simp [assembleResults, hpa, hpb, hpc]

/-- Witness for C4: three concrete adaptors of which exactly the second
raises `MalformedSourceError`. -/
theorem failure_isolation_witness :
    cacheKey [] adA ≠ cacheKey [] adB ∧
    cacheKey [] adA ≠ cacheKey [] adC ∧
    cacheKey [] adB ≠ cacheKey [] adC ∧
    (computeAdaptor envFix penvFix [] adA).1 = .ok sessFromA ∧
    (computeAdaptor envFix penvFix [] adB).1 = .error .malformedSource ∧
    (computeAdaptor envFix penvFix [] adC).1 = .ok sessFromC ∧
    ((orchLoad true envFix penvFix [] [adA, adB, adC] []).sessions =
        [sessFromA, sessFromC] ∧
     (orchLoad true envFix penvFix [] [adA, adB, adC] []).diags =
        [{ adaptor := "B", error := .malformedSource }]) :=
  ⟨by decide, by decide, by decide, rfl, rfl, rfl,
   failure_isolation envFix penvFix [] adA adB adC sessFromA sessFromC
     (by decide) (by decide) (by decide) rfl rfl rfl⟩

/-- C3: the pooled run over the discovered adaptors, with any worker
completion order (any permutation of the task indices — `max_workers=4`
differs from `max_workers=1` only in that order), produces exactly the
sessions and diagnostics of the sequential run: identical session
ordering (the Locator discovery order of the adaptors) and identical
per-session contents, regardless of completion order or whether
individual results came from cache. -/
theorem order_invariance (env : LoaderEnv) (penv : ProcEnv)
    (procs : List String) (adaptors : List DataTypeAdaptor) (c0 : Cache)
    (order : List Nat)
    (hnd : ((adaptors.map (cacheKey procs)).Nodup))
    (hperm : order.Perm (List.range adaptors.length)) :
    parLoad order true env penv procs adaptors c0 =
      ((orchLoad true env penv procs adaptors c0).sessions,
       (orchLoad true env penv procs adaptors c0).diags) ∧
    parLoad order true env penv procs adaptors c0 =
      assembleResults (adaptors.map
        (fun a => (a, parResult true env penv procs c0 a))) := by
  have hpar := @parLoad_eq_pure true env penv procs adaptors c0 order hperm
  have hseq := @orchLoad_eq_pure env penv procs adaptors c0 c0 hnd (fun _ _ => rfl)
  refine ⟨?_, hpar⟩
  rw [hpar, hseq.1, hseq.2]

/-- Witness for C3: two concrete adaptors completed in reversed order
produce the sequential result. -/
theorem order_invariance_witness :
    (([adA, adC].map (cacheKey [])).Nodup) ∧
    ([1, 0].Perm (List.range 2)) ∧
    parLoad [1, 0] true envFix penvFix [] [adA, adC] [] =
      ((orchLoad true envFix penvFix [] [adA, adC] []).sessions,
       (orchLoad true envFix penvFix [] [adA, adC] []).diags) :=
  ⟨by decide, List.Perm.swap 0 1 [],
   (order_invariance envFix penvFix [] [adA, adC] [] [1, 0]
     (by decide) (List.Perm.swap 0 1 [])).1⟩

/-- C2: with caching enabled and an unchanged loader/processor pipeline,
if the first orchestrated load over the discovered adaptors completed
without failures, running the same load a second time over the cache the
first run produced yields identical SessionCollection contents, issues
zero Loader invocations (every adaptor is a cache hit), and leaves the
cache unchanged. The cache keys are derived from stable pipeline
identities, so they coincide across the two runs. -/
theorem load_idempotent (env : LoaderEnv) (penv : ProcEnv) (procs : List String) :
    ∀ (adaptors : List DataTypeAdaptor) (c0 : Cache),
      ((adaptors.map (cacheKey procs)).Nodup) →
      (∀ a ∈ adaptors, ∀ s, (computeAdaptor env penv procs a).1 = .ok s → s.WF) →
      ((orchLoad true env penv procs adaptors c0).diags = []) →
      orchLoad true env penv procs adaptors
          (orchLoad true env penv procs adaptors c0).cache =
        { sessions := (orchLoad true env penv procs adaptors c0).sessions
          diags := []
          cache := (orchLoad true env penv procs adaptors c0).cache
          invocations := 0 }
  | [], c0, _, _, _ => rfl
  | a :: rest, c0, hnd, hwf, hok => by
    have hnd' : ((rest.map (cacheKey procs)).Nodup) := (List.nodup_cons.mp hnd).2
    have hkeys : ∀ b ∈ rest, cacheKey procs b ≠ cacheKey procs a := by
      intro b hb he
      exact (List.nodup_cons.mp hnd).1
        (he ▸ List.mem_map_of_mem (cacheKey procs) hb)
    have hwf' : ∀ b ∈ rest, ∀ s,
        (computeAdaptor env penv procs b).1 = .ok s → s.WF :=
      fun b hb => hwf b (List.mem_cons_of_mem a hb)
    cases hs1 : (orchStep true env penv procs c0 a).1 with
    | error er =>
      rw [orchLoad_cons_err hs1] at hok
      exact absurd hok (by simp)
    | ok s₁ =>
      rw [orchLoad_cons_ok hs1] at hok
      simp only at hok
      have hhit : cacheGet (cacheKey procs a)
          (orchLoad true env penv procs rest
            (orchStep true env penv procs c0 a).2.1).cache = some s₁ := by
        rw [orchLoad_cache_lookup hkeys]
        cases hget : cacheGet (cacheKey procs a) c0 with
        | some s =>
          have hstep := orchStep_hit (e := env) (p := penv) hget
          have h2 : (orchStep true env penv procs c0 a).2.1 = c0 := by rw [hstep]
          have h1 : Except.ok (ε := LoadError) s = .ok s₁ := by
            rw [← hs1, hstep]
          rw [h2, hget]
          exact congrArg some (by injection h1)
        | none =>
          cases hcomp : (computeAdaptor env penv procs a).1 with
          | error er =>
            have hstep := orchStep_miss_err (e := env) (p := penv) hget hcomp
            rw [hstep] at hs1
            exact nomatch hs1
          | ok s =>
            have hstep := orchStep_miss_ok (e := env) (p := penv) hget hcomp
            have h2 : (orchStep true env penv procs c0 a).2.1 =
                cachePut (cacheKey procs a) s c0 := by rw [hstep]
            have h1 : Except.ok (ε := LoadError) s = .ok s₁ := by
              rw [← hs1, hstep]
            have hse : s = s₁ := by injection h1
            rw [h2, cacheGet_cachePut_self,
              decodeSession_encodeSession s (hwf a (List.mem_cons_self a rest) s hcomp),
              hse]
      have ih := load_idempotent env penv procs rest
        (orchStep true env penv procs c0 a).2.1 hnd' hwf' hok
      have hstep2 := orchStep_hit (e := env) (p := penv) hhit
      have h1 : (orchStep true env penv procs
          (orchLoad true env penv procs rest
            (orchStep true env penv procs c0 a).2.1).cache a).1 = .ok s₁ := by
        rw [hstep2]
      rw [orchLoad_cons_ok hs1]
      simp only
      rw [orchLoad_cons_ok h1]
      have h2 : (orchStep true env penv procs
          (orchLoad true env penv procs rest
            (orchStep true env penv procs c0 a).2.1).cache a).2.1 =
          (orchLoad true env penv procs rest
            (orchStep true env penv procs c0 a).2.1).cache := by
        rw [hstep2]
      have h3 : (orchStep true env penv procs
          (orchLoad true env penv procs rest
            (orchStep true env penv procs c0 a).2.1).cache a).2.2 = 0 := by
        rw [hstep2]
      rw [h2, h3, ih]
      simp

/-- Witness for C2: a one-adaptor load run twice over an initially empty
cache. -/
theorem load_idempotent_witness :
    (([adA].map (cacheKey [])).Nodup) ∧
    (∀ a ∈ [adA], ∀ s : Session,
      (computeAdaptor envFix penvFix [] a).1 = .ok s → s.WF) ∧
    ((orchLoad true envFix penvFix [] [adA] []).diags = []) ∧
    orchLoad true envFix penvFix [] [adA]
        (orchLoad true envFix penvFix [] [adA] []).cache =
      { sessions := (orchLoad true envFix penvFix [] [adA] []).sessions
        diags := []
        cache := (orchLoad true envFix penvFix [] [adA] []).cache
        invocations := 0 } := by
  have hwf : ∀ a ∈ [adA], ∀ s : Session,
      (computeAdaptor envFix penvFix [] a).1 = .ok s → s.WF := by
    intro a ha s hs
    rw [List.mem_singleton] at ha
    subst ha
    have hv : (computeAdaptor envFix penvFix [] adA).1 = .ok sessFromA := rfl
    rw [hv] at hs
    have hse : sessFromA = s := by injection hs
    rw [← hse]
    decide
  exact ⟨by decide, hwf, rfl,
    load_idempotent envFix penvFix [] [adA] [] (by decide) hwf rfl⟩

end FPTools
